import Mathlib

/-!
# Verification of the RailwayDog server simulation

A shallow embedding of `src/server.js`: a single-dog simulation confined to a
geographic polygon, with an activity clock, a weekly schedule resolver, a
motion engine and a dirty-state reconciler against a remote store.

Modelling conventions:
* JavaScript numbers are IEEE doubles, hence rationals; all numeric state is
  embedded in `ℚ` with exact arithmetic (rounding of individual float
  operations is not modelled, as usual for a shallow embedding).
* Calls to `Math.random()` are modelled as explicitly passed draws in
  `[0, 1)`; calls to `Math.cos` / `Math.sin` on the heading and latitude are
  modelled as explicitly passed values (the double each call returns), since
  the claims under verification do not depend on trigonometric identities.
* `Math.PI` is the IEEE double nearest to pi, the exact rational
  884279719003555 / 2^48, embedded as `MathPI`.
* The JavaScript `%` operator (truncating remainder) is embedded as `jsMod`.
* Wall-clock time enters only through `new Date()`; dates are embedded as
  year/month/day triples with the JS `Date` normalization semantics
  (`setDate`, `getDay`, `getFullYear`) modelled over a proleptic Gregorian
  calendar, and the hour of day passed explicitly.
* Firestore is an external collaborator; reads and writes are modelled as an
  explicit key-to-record map plus success/failure outcomes supplied by the
  environment, following the spec's description of the store interface
  (at-least-once, last-value-wins delivery).

The file is organized as definitions first, then theorems.
-/

namespace RailwayDog

/-! ## Geometry module (`server.js` lines 130-165) -/

/-- Embeds `metersToLat(m)`: `m / 111320` (line 133). -/
def metersToLat (m : ℚ) : ℚ := m / 111320

/-- Embeds `metersToLng(m, lat)`: `m / (111320 * Math.cos(lat * PI / 180))` (line 134).
The cosine of the latitude is passed in as the double `cosLat` that
`Math.cos` returned. -/
def metersToLng (m cosLat : ℚ) : ℚ := m / (111320 * cosLat)

/-- Bounding box of a polygon, as computed by `polygonBbox` (lines 136-143). -/
structure Bbox where
  minLat : ℚ
  maxLat : ℚ
  minLng : ℚ
  maxLng : ℚ

/-- Embeds `polygonBbox(poly)` (lines 136-143). The JS code folds min/max starting
from `±Infinity`; for a nonempty polygon this equals folding from the first
vertex, which is how the total function is written here (the empty case,
where JS would keep infinite bounds, is mapped to a degenerate box that every
caller treats the same way: every sample drawn from it misses the empty
polygon). -/
def polygonBbox : List (ℚ × ℚ) → Bbox
  | [] => ⟨0, 0, 0, 0⟩
  | p :: rest =>
    rest.foldl
      (fun b q => ⟨min b.minLat q.1, max b.maxLat q.1, min b.minLng q.2, max b.maxLng q.2⟩)
      ⟨p.1, p.1, p.2, p.2⟩

/-- One edge test of the ray-casting loop in `pointInPolygon` (lines 150-151):
`(yi > lat) !== (yj > lat) && lng < ((xj - xi) * (lat - yi)) / (yj - yi) + xi`,
where `p = poly[i] = [yi, xi]` and `q = poly[j] = [yj, xj]`. When
`yj = yi` the first conjunct is false (JS short-circuits before the division;
in `ℚ` the division is total with `x / 0 = 0`, so writing both conjuncts is
faithful). -/
def pipHit (lat lng : ℚ) (p q : ℚ × ℚ) : Bool :=
  (decide (p.1 > lat) != decide (q.1 > lat)) &&
    decide (lng < (q.2 - p.2) * (lat - p.1) / (q.1 - p.1) + p.2)

/-- The loop of `pointInPolygon` (lines 146-153): walk the vertices in order,
carrying the previous vertex (`j = i-1`, wrapping to the last vertex for
`i = 0`) and the parity accumulator `inside`. -/
def pipAux (lat lng : ℚ) : List (ℚ × ℚ) → (ℚ × ℚ) → Bool → Bool
  | [], _, inside => inside
  | p :: rest, prev, inside =>
    pipAux lat lng rest p (if pipHit lat lng p prev then !inside else inside)

/-- Embeds `pointInPolygon(lat, lng, poly)` (lines 145-155): ray-casting parity test;
the initial previous vertex is the last one (`j = poly.length - 1`). An empty
polygon runs an empty loop and returns `false`. -/
def pointInPolygon (lat lng : ℚ) (poly : List (ℚ × ℚ)) : Bool :=
  match poly.getLast? with
  | none => false
  | some lastV => pipAux lat lng poly lastV false

/-- Embeds `BC_BOUNDARY` (lines 61-79): the boundary polygon, vertex list of
`[lat, lng]` pairs. -/
def BC_BOUNDARY : List (ℚ × ℚ) :=
  [ (42.33224350973427, -71.17622608785834),
    (42.33294418013368, -71.17670186131114),
    (42.334696698297854, -71.17617488356345),
    (42.334723208937135, -71.17355845252719),
    (42.33364940855117, -71.1726398624431),
    (42.33452480446149, -71.17177160723693),
    (42.3371744184889, -71.17224573285121),
    (42.339004671862, -71.16981411429009),
    (42.33983359003376, -71.16677242009746),
    (42.34003246804304, -71.16471273471637),
    (42.33847109761738, -71.16474563289441),
    (42.33693062395219, -71.16402897148993),
    (42.33606965117531, -71.16563611774984),
    (42.33515614285314, -71.16397622579184),
    (42.33384055554289, -71.16419197870498),
    (42.33285235206975, -71.17273406243879),
    (42.33251237623095, -71.1753307857849) ]

/-- The fixed fallback coordinate returned by `randomPointInPolygon` after
exhausting its attempts (line 164). -/
def FALLBACK_POINT : ℚ × ℚ := (42.3355, -71.1685)

/-- One rejection sample (lines 160-161): a point drawn inside the bounding
box from the pair of `Math.random()` draws `r`. -/
def rppSample (b : Bbox) (r : ℚ × ℚ) : ℚ × ℚ :=
  (b.minLat + r.1 * (b.maxLat - b.minLat), b.minLng + r.2 * (b.maxLng - b.minLng))

/-- The sampling loop of `randomPointInPolygon` (lines 159-164): `k` is the
index of the next pair of `Math.random()` draws, `fuel` the remaining
attempts; when fuel runs out the fixed fallback coordinate is returned. -/
def rppGo (poly : List (ℚ × ℚ)) (b : Bbox) (rnd : ℕ → ℚ × ℚ) : ℕ → ℕ → ℚ × ℚ
  | _, 0 => FALLBACK_POINT
  | k, fuel + 1 =>
    let p := rppSample b (rnd k)
    if pointInPolygon p.1 p.2 poly then p else rppGo poly b rnd (k + 1) fuel

/-- Embeds `randomPointInPolygon(poly, tries = 800)` (lines 157-165), with the
`Math.random()` draws of attempt `k` supplied as `rnd k`. -/
def randomPointInPolygon (poly : List (ℚ × ℚ)) (rnd : ℕ → ℚ × ℚ) (tries : ℕ) : ℚ × ℚ :=
  rppGo poly (polygonBbox poly) rnd 0 tries

/-! ## Numeric environment: `Math.PI` and the JS `%` operator -/

/-- Embeds `Math.PI`: the IEEE double nearest to pi, exactly
`884279719003555 / 2^48`. -/
def MathPI : ℚ := 884279719003555 / 281474976710656

/-- Truncation toward zero, as JS `%` uses on the quotient. -/
def jsTrunc (q : ℚ) : ℤ := if 0 ≤ q then ⌊q⌋ else ⌈q⌉

/-- The JS remainder operator `x % y`: `x - y * trunc(x / y)`. -/
def jsMod (x y : ℚ) : ℚ := x - y * jsTrunc (x / y)

/-! ## The dog roster (`server.js` lines 51-59) -/

/-- One entry of the `DOGS` roster. -/
structure DogInfo where
  id : String
  name : String
  image : String
deriving DecidableEq, Inhabited

/-- Embeds `DOGS` (lines 51-59): the fixed roster of seven identities. -/
def DOGS : List DogInfo :=
  [ { id := "dog1", name := "Claver", image := "dogs/claver.png" },
    { id := "dog2", name := "Cashew", image := "dogs/cashew.png" },
    { id := "dog3", name := "Java", image := "dogs/java.png" },
    { id := "dog4", name := "Angel", image := "dogs/angel.png" },
    { id := "dog5", name := "Kesha", image := "dogs/kesha.png" },
    { id := "dog6", name := "Buddy", image := "dogs/buddy.png" },
    { id := "dog7", name := "Max", image := "dogs/max.png" } ]

/-! ## In-memory dog state and the store (`server.js` lines 207-211, 229-334)

The in-memory globals `dog` (nullable) and `dirty`, together with the
Firestore collection `dogs` the persistence code reads and writes, are
gathered into one `ServerState`. The store is an explicit map from document
key (the spawn date) to the persisted record. -/

/-- One persisted dog document (spec section 6: the entity record fields).
Fields a given write may leave absent are `Option`s. -/
structure DocRec where
  dateKey : String
  dogId : Option String
  dogName : Option String
  dogImage : Option String
  lat : ℚ
  lng : ℚ
  speedMps : ℚ
  headingRad : ℚ
  lastUpdateMs : Option ℤ
  createdBy : Option String
  serverControlled : Option Bool
  serverHeartbeat : Option ℤ

/-- The `dogs` collection: document key (date key) to record. -/
def Store := String → Option DocRec

/-- The in-memory `dog` object (lines 242-248, 255-265, 271-276). -/
structure Dog where
  dateKey : String
  dogId : String
  dogName : String
  dogImage : String
  lat : ℚ
  lng : ℚ
  speedMps : ℚ
  headingRad : ℚ
  lastUpdateMs : ℤ

/-- The mutable server state: the globals `dog` and `dirty` (lines 210-211)
plus the store. -/
structure ServerState where
  dog : Option Dog
  dirty : Bool
  store : Store

/-! ## Motion engine: `tickDog` (`server.js` lines 295-313) -/

/-- The per-tick environment: what the impure calls inside `tickDog` return.
`active` is `isActiveHours()`; `cosH` and `sinH` are the doubles
`Math.cos(dog.headingRad)` and `Math.sin(dog.headingRad)`; `cosLat` is the
`Math.cos(lat * PI / 180)` inside `metersToLng`; `rand` is the
`Math.random()` draw of the bounce branch; `now` is `Date.now()`. -/
structure TickEnv where
  active : Bool
  cosH : ℚ
  sinH : ℚ
  cosLat : ℚ
  rand : ℚ
  now : ℤ

/-- Embeds `tickDog(dtSeconds)` (lines 295-313): no-op without a dog or outside
active hours; otherwise commit the candidate step if it stays inside
`BC_BOUNDARY`, else bounce the heading; either branch refreshes
`lastUpdateMs` and sets `dirty`. -/
def tickDog (dt : ℚ) (env : TickEnv) (s : ServerState) : ServerState :=
  match s.dog with
  | none => s
  | some d =>
    if env.active then
      let stepM := d.speedMps * dt
      let nextLat := d.lat + metersToLat (stepM * env.cosH)
      let nextLng := d.lng + metersToLng (stepM * env.sinH) env.cosLat
      if pointInPolygon nextLat nextLng BC_BOUNDARY then
        { s with
          dog := some { d with lat := nextLat, lng := nextLng, lastUpdateMs := env.now },
          dirty := true }
      else
        { s with
          dog := some { d with
            headingRad := jsMod (d.headingRad + MathPI + (env.rand - 0.5) * 0.6) (MathPI * 2),
            lastUpdateMs := env.now },
          dirty := true }
    else s

/-- A sequence of ticks, each with its own `dt` and environment. -/
def tickSeq (steps : List (ℚ × TickEnv)) (s : ServerState) : ServerState :=
  steps.foldl (fun st p => tickDog p.1 p.2 st) s

/-- The committed position (when a dog is loaded) lies inside the boundary
polygon. -/
def InsideBoundary (s : ServerState) : Prop :=
  ∀ d, s.dog = some d → pointInPolygon d.lat d.lng BC_BOUNDARY = true

/-! ## Persistence reconciler (`server.js` lines 229-334) -/

/-- The outcome of the Firestore read in `loadOrCreateDog` (lines 236-250):
the read throws, finds no document, or finds one. -/
inductive ReadResult where
  | readErr : ReadResult
  | notFound : ReadResult
  | found : DocRec → ReadResult

/-- The full document `loadOrCreateDog` writes for a newly created dog
(lines 278-284): the spread of the in-memory dog plus
`createdBy: 'server'`, a server timestamp and `serverControlled: true`. -/
def docOfNewDog (d : Dog) : DocRec :=
  { dateKey := d.dateKey, dogId := some d.dogId, dogName := some d.dogName,
    dogImage := some d.dogImage, lat := d.lat, lng := d.lng,
    speedMps := d.speedMps, headingRad := d.headingRad,
    lastUpdateMs := some d.lastUpdateMs, createdBy := some "server",
    serverControlled := some true, serverHeartbeat := none }

/-- Embeds `loadOrCreateDog(dateKey)` (lines 232-290). The resolved identity
`dogInfo` (from `getDogForDate`), the read outcome, the `Math.random()` draws
(`rnd` for `randomPointInPolygon`, `speedR` for the speed, `headR` for the
heading), the success of the creation write (`writeOk`) and `Date.now()` are
supplied by the environment. On a read error the dog is synthesized in
memory only; on a missing document it is synthesized and persisted, and a
failed persist sets `dirty` so a later flush retries; on a found document the
in-memory dog is hydrated from it, falling back to the resolved identity for
missing identity fields. -/
def loadOrCreateDog (dateKey : String) (dogInfo : DogInfo) (read : ReadResult)
    (rnd : ℕ → ℚ × ℚ) (speedR headR : ℚ) (writeOk : Bool) (now : ℤ)
    (s : ServerState) : ServerState :=
  match read with
  | .readErr =>
    let p := randomPointInPolygon BC_BOUNDARY rnd 800
    { s with
      dog := some {
        dateKey := dateKey, dogId := dogInfo.id, dogName := dogInfo.name,
        dogImage := dogInfo.image, lat := p.1, lng := p.2,
        speedMps := (1.75 + speedR * 0.5) * 0.44704,
        headingRad := headR * MathPI * 2,
        lastUpdateMs := now } }
  | .found doc =>
    { s with
      dog := some {
        dateKey := dateKey,
        dogId := doc.dogId.getD dogInfo.id,
        dogName := doc.dogName.getD dogInfo.name,
        dogImage := doc.dogImage.getD dogInfo.image,
        lat := doc.lat, lng := doc.lng,
        speedMps := doc.speedMps,
        headingRad := doc.headingRad,
        lastUpdateMs := doc.lastUpdateMs.getD now } }
  | .notFound =>
    let p := randomPointInPolygon BC_BOUNDARY rnd 800
    let newDog : Dog := {
      dateKey := dateKey, dogId := dogInfo.id, dogName := dogInfo.name,
      dogImage := dogInfo.image, lat := p.1, lng := p.2,
      speedMps := (1.75 + speedR * 0.5) * 0.44704,
      headingRad := headR * MathPI * 2,
      lastUpdateMs := now }
    if writeOk then
      { s with
        dog := some newDog,
        store := fun k => if k = dateKey then some (docOfNewDog newDog) else s.store k }
    else
      { s with dog := some newDog, dirty := true }

/-- Modelled from the spec: the store-side effect of a successful flush write
(`update` on the `dogs` document, lines 323-329). Firestore itself is not
part of the repository; per spec section 4.5 the flush delivers
position/heading/speed/timestamps plus a heartbeat at-least-once with
last-value-wins, so a successful write leaves a record under the dog's date
key carrying exactly the written fields (merged over an existing record when
one is present). -/
def flushWrite (store : Store) (d : Dog) (now : ℤ) : Store :=
  fun k =>
    if k = d.dateKey then
      some (match store d.dateKey with
        | some old =>
          { old with
            lat := d.lat, lng := d.lng, headingRad := d.headingRad,
            speedMps := d.speedMps, lastUpdateMs := some d.lastUpdateMs,
            serverHeartbeat := some now }
        | none =>
          { dateKey := d.dateKey, dogId := none, dogName := none, dogImage := none,
            lat := d.lat, lng := d.lng, speedMps := d.speedMps,
            headingRad := d.headingRad, lastUpdateMs := some d.lastUpdateMs,
            createdBy := none, serverControlled := none, serverHeartbeat := some now })
    else store k

/-- Embeds `flushToFirestore()` (lines 318-334): a no-op unless a dog is loaded, the
state is dirty and the clock reports active; otherwise it clears `dirty` and
attempts the write (`writeOk` says whether the write succeeded), setting
`dirty` back on failure. Returns the new state and whether a store write was
attempted. -/
def flushToFirestore (active writeOk : Bool) (now : ℤ) (s : ServerState) :
    ServerState × Bool :=
  match s.dog with
  | none => (s, false)
  | some d =>
    if s.dirty then
      if active then
        if writeOk then
          ({ s with dirty := false, store := flushWrite s.store d now }, true)
        else
          ({ s with dirty := true }, true)
      else (s, false)
    else (s, false)

/-- The body of the `scheduleHeadingChange` timer (lines 342-351): when a dog
is loaded and the clock reports active, turn the heading by up to ±π/4
(`(Math.random() - 0.5) * (Math.PI / 2)`), wrapped into `[0, 2π)` by adding
`2π` and reducing with `%`, and mark the state dirty; otherwise do nothing.
`r` is the `Math.random()` draw. -/
def headingChangeStep (active : Bool) (r : ℚ) (s : ServerState) : ServerState :=
  match s.dog with
  | none => s
  | some d =>
    if active then
      { s with
        dog := some { d with
          headingRad := jsMod (d.headingRad + (r - 0.5) * (MathPI / 2) + MathPI * 2) (MathPI * 2) },
        dirty := true }
    else s

/-! ## The JS `Date` library model and the activity clock
(`server.js` lines 88-128, 170-183)

`new Date()` values are reduced to the local calendar date (year, month
1-12, day 1-31) plus the hour of day, which is all the server reads from
them. The JS library behaviour used by the code — `setDate(getDate() - 1)`
and `setDate(getDate() + n)` normalization across month and year boundaries,
`getDay()`, `getFullYear()` — is modelled over the proleptic Gregorian
calendar, which is exactly the calendar ECMAScript prescribes. -/

/-- A local calendar date: year (any integer, as in JS), month `1..12`, day
`1..daysInMonth`. -/
structure YMD where
  y : ℤ
  m : ℕ
  d : ℕ
deriving DecidableEq

/-- Gregorian leap year, as ECMAScript's calendar defines it. -/
def isLeap (y : ℤ) : Bool := (y % 4 == 0 && y % 100 != 0) || y % 400 == 0

/-- Days in a month of the Gregorian calendar (the `_` branch is never
reached from a valid date). -/
def daysInMonth (y : ℤ) (m : ℕ) : ℕ :=
  match m with
  | 1 => 31
  | 2 => if isLeap y then 29 else 28
  | 3 => 31
  | 4 => 30
  | 5 => 31
  | 6 => 30
  | 7 => 31
  | 8 => 31
  | 9 => 30
  | 10 => 31
  | 11 => 30
  | 12 => 31
  | _ => 31

/-- Days of year `y` strictly before month `m` (cumulative month table). -/
def daysBeforeMonth (y : ℤ) (m : ℕ) : ℕ :=
  let L : ℕ := if isLeap y then 1 else 0
  match m with
  | 1 => 0
  | 2 => 31
  | 3 => 59 + L
  | 4 => 90 + L
  | 5 => 120 + L
  | 6 => 151 + L
  | 7 => 181 + L
  | 8 => 212 + L
  | 9 => 243 + L
  | 10 => 273 + L
  | 11 => 304 + L
  | 12 => 334 + L
  | _ => 0

/-- Days strictly before January 1 of year `y` in the proleptic Gregorian
calendar, counted from the day before 0001-01-01 (floor division extends the
count to non-positive years exactly as the calendar does). -/
def daysBeforeYear (y : ℤ) : ℤ :=
  365 * (y - 1) + ((y - 1) / 4 - (y - 1) / 100 + (y - 1) / 400)

/-- The rata-die day number of a date: 0001-01-01 has number 1. This is the
canonical day count against which "the previous/next calendar day" is
checked. -/
def rataDie (t : YMD) : ℤ := daysBeforeYear t.y + daysBeforeMonth t.y t.m + t.d

/-- A well-formed calendar date. -/
def Valid (t : YMD) : Prop :=
  1 ≤ t.m ∧ t.m ≤ 12 ∧ 1 ≤ t.d ∧ t.d ≤ daysInMonth t.y t.m

/-- Embeds `Date#getDay()`: 0 = Sunday .. 6 = Saturday. 0001-01-01 (rata die 1) was
a Monday, so the JS weekday is the rata-die number modulo 7. -/
def jsGetDay (t : YMD) : ℤ := rataDie t % 7

/-- Embeds `d.setDate(d.getDate() - 1)` (line 110): JS normalizes day 0 to the last
day of the previous month, rolling the year back at January. -/
def prevDayJS (t : YMD) : YMD :=
  if 2 ≤ t.d then { t with d := t.d - 1 }
  else if 2 ≤ t.m then { t with m := t.m - 1, d := daysInMonth t.y (t.m - 1) }
  else { y := t.y - 1, m := 12, d := 31 }

/-- Embeds `d.setDate(d.getDate() + 1)`: JS normalizes one past the month's last day
to the first of the next month, rolling the year forward at December. -/
def nextDayJS (t : YMD) : YMD :=
  if t.d < daysInMonth t.y t.m then { t with d := t.d + 1 }
  else if t.m < 12 then { t with m := t.m + 1, d := 1 }
  else { y := t.y + 1, m := 1, d := 1 }

/-- Embeds `d.setDate(d.getDate() + n)` for a possibly negative offset `n`. -/
def addDays (n : ℤ) (t : YMD) : YMD :=
  if 0 ≤ n then nextDayJS^[n.toNat] t else prevDayJS^[(-n).toNat] t

/-- Embeds `String(x).padStart(2, '0')` (lines 120-121). -/
def padStart2 (s : String) : String :=
  ⟨List.replicate (2 - s.length) '0' ++ s.data⟩

/-- Embeds `formatDate(d)` (lines 118-123): `YYYY-MM-DD` with zero-padded month and
day. -/
def formatDate (t : YMD) : String :=
  toString t.y ++ "-" ++ padStart2 (toString t.m) ++ "-" ++ padStart2 (toString t.d)

/-- Embeds `isActiveHours()` (lines 88-91): `hour >= 10 || hour < 2`. -/
def isActiveHours (hour : ℕ) : Bool :=
  decide (10 ≤ hour) || decide (hour < 2)

/-- Embeds `spawnDateKey()` (lines 100-116): today's date at hour 10 and later,
yesterday's date before hour 2, and `null` in between. `t` is the current
local calendar date, `hour` the current local hour. -/
def spawnDateKey (t : YMD) (hour : ℕ) : Option String :=
  if 10 ≤ hour then some (formatDate t)
  else if hour < 2 then some (formatDate (prevDayJS t))
  else none

/-! ## ISO week key (`server.js` lines 170-178) -/

/-- Embeds `const dayNum = d.getDay() || 7` (line 173): ISO day number, Monday 1 ..
Sunday 7. -/
def isoDayNum (t : YMD) : ℤ := if jsGetDay t = 0 then 7 else jsGetDay t

/-- Lines 172-174: shift the (midnight-normalized) date to the Thursday of
its ISO week via `setDate(getDate() + 4 - dayNum)`. -/
def weekThursday (t : YMD) : YMD := addDays (4 - isoDayNum t) t

/-- Lines 175-176: `Math.ceil((((d - yearStart) / 86400000) + 1) / 7)`. The
subtraction `d - yearStart` is between epoch milliseconds of two local
midnights; in the service's fixed zone (America/New_York) it is either a
whole number of days or one hour short of one (when `d` is in daylight
saving time and January 1 is not), which the flag `dst` selects; the whole
number of days equals the rata-die difference to January 1 of the Thursday's
year (`new Date(d.getFullYear(), 0, 1)`). -/
def weekNoOf (dst : Bool) (thu : YMD) : ℤ :=
  let diffDays : ℚ := ((rataDie thu - rataDie ⟨thu.y, 1, 1⟩ : ℤ) : ℚ) - (if dst then 1/24 else 0)
  ⌈(diffDays + 1) / 7⌉

/-- Embeds `getWeekKey(date)` (lines 170-178): the ISO-8601 week identifier
`YYYY-Www`, year and week number taken from the Thursday of the date's ISO
week. -/
def getWeekKey (dst : Bool) (t : YMD) : String :=
  toString (weekThursday t).y ++ "-W" ++ padStart2 (toString (weekNoOf dst (weekThursday t)))

/-! ## Schedule resolver (`server.js` lines 180-205) -/

/-- Embeds `getDayOfWeek(date)` (lines 180-183): Monday 0 .. Sunday 6, from the JS
weekday `getDay()` (Sunday 0). -/
def getDayOfWeek (t : YMD) : ℕ :=
  if jsGetDay t = 0 then 6 else (jsGetDay t - 1).toNat

/-- The `weeklySchedules` collection: week key to ordered id list. -/
def WeeklyStore := String → Option (List String)

/-- One `Math.random() - 0.5` comparator call of the shuffle (line 190),
reduced to its sign: `cmp k = true` when the `k`-th call returned a negative
value, i.e. the comparator asked to keep the probed order. -/
def RandCmp : Type := ℕ → Bool

/-- One insertion step of the modelled sort: insert `a` into the already
sorted prefix, consulting the comparator stream from index `k`; returns the
new list and the next unused comparator index. -/
def insertRand {α : Type} (cmp : RandCmp) : ℕ → α → List α → List α × ℕ
  | k, a, [] => ([a], k)
  | k, a, b :: l =>
    if cmp k then (a :: b :: l, k + 1)
    else (b :: (insertRand cmp (k + 1) a l).1, (insertRand cmp (k + 1) a l).2)

/-- The modelled sort loop: fold the input into an accumulator by repeated
insertion, threading the comparator index. -/
def jsRandomSortAux {α : Type} (cmp : RandCmp) : List α → ℕ → List α → List α
  | acc, _, [] => acc
  | acc, k, a :: l =>
    jsRandomSortAux cmp (insertRand cmp k a acc).1 (insertRand cmp k a acc).2 l

/-- Modelled behaviour of `[...DOGS].sort(() => Math.random() - 0.5)`
(line 190). ECMA-262 leaves the element order produced by `sort` with an
inconsistent comparator implementation-defined, but it is always some
permutation of the input; the model instantiates it as an insertion sort
driven by the comparator draws, a representative comparison sort. -/
def jsRandomSort {α : Type} (cmp : RandCmp) (l : List α) : List α :=
  jsRandomSortAux cmp [] 0 l

/-- Embeds `getOrCreateWeeklySchedule(weekKey)` (lines 185-194): return the stored
schedule when one exists; otherwise shuffle a copy of the roster, map the
ids out, persist the result under the week key and return it. -/
def getOrCreateWeeklySchedule (cmp : RandCmp) (store : WeeklyStore) (weekKey : String) :
    List String × WeeklyStore :=
  match store weekKey with
  | some schedule => (schedule, store)
  | none =>
    let shuffled := (jsRandomSort cmp DOGS).map DogInfo.id
    (shuffled, fun k => if k = weekKey then some shuffled else store k)

/-- Embeds `getDogForDate(dateKey)` (lines 196-205) with the schedule already
fetched: index the week schedule by the Monday-based day index; fall back to
the first roster entry when the index is out of range or the stored id
matches no roster entry (`DOGS.find(...) || DOGS[0]`). The `dateKey` is
parsed at local midnight (line 199), giving the local calendar date `t`. -/
def getDogForDate (schedule : List String) (t : YMD) : DogInfo :=
  match schedule[getDayOfWeek t]? with
  | some dogId => (DOGS.find? (fun d => d.id == dogId)).getD DOGS.headI
  | none => DOGS.headI

/-! ## The probability model for the shuffle (claim C7)

`Math.random()` draws one of `2^53` equally likely doubles; a shuffle
procedure consuming `m` draws is a function from the draw vector to the
produced ordering, and the probability of an ordering is proportional to the
number of draw vectors mapped to it. -/

/-- The number of distinct values `Math.random()` can return. -/
def jsRandomStates : ℕ := 2 ^ 53

/-- How many draw vectors an abstract shuffle procedure `f` (consuming `m`
draws) maps to the permutation `σ` of the roster positions. -/
def shuffleCount (m : ℕ)
    (f : (Fin m → Fin jsRandomStates) → Equiv.Perm (Fin DOGS.length))
    (σ : Equiv.Perm (Fin DOGS.length)) : ℕ :=
  (Finset.univ.filter (fun v => f v = σ)).card

/-- Holds when `f` produces every ordering of the roster with equal probability. -/
def IsUniformShuffle (m : ℕ)
    (f : (Fin m → Fin jsRandomStates) → Equiv.Perm (Fin DOGS.length)) : Prop :=
  ∀ σ τ, shuffleCount m f σ = shuffleCount m f τ

/-! ## Concrete objects used by the witnesses -/

/-- A concrete dog sitting at an interior point of `BC_BOUNDARY`. -/
def dogC : Dog :=
  { dateKey := "2026-10-11", dogId := "dog5", dogName := "Kesha",
    dogImage := "dogs/kesha.png", lat := 42.336, lng := -71.17,
    speedMps := 1, headingRad := 1, lastUpdateMs := 0 }

/-- A concrete server state holding `dogC`, with an empty store. -/
def stateC : ServerState := { dog := some dogC, dirty := false, store := fun _ => none }

/-- A concrete active tick environment: heading cosine 1, sine 0, latitude
cosine 1, bounce draw 1/2. -/
def envC : TickEnv := { active := true, cosH := 1, sinH := 0, cosLat := 1, rand := 1/2, now := 5 }

/-- A copy of `dogC` sped up so that one 1-second tick overshoots the polygon. -/
def dogFast : Dog := { dogC with speedMps := 100000 }

/-- A state holding `dogFast`. -/
def stateFast : ServerState := { dog := some dogFast, dirty := false, store := fun _ => none }

/-- A dirty state holding `dogC`, for the flush witnesses. -/
def stateDirty : ServerState := { dog := some dogC, dirty := true, store := fun _ => none }

/-- The constant draw sequence `(1/2, 1/2)`: the first rejection sample is
the center of the bounding box, which lies inside `BC_BOUNDARY`. -/
def rndC : ℕ → ℚ × ℚ := fun _ => (1/2, 1/2)

/-- The dog the `readErr` branch of `loadOrCreateDog` synthesizes from the
draws `rndC`, speed draw 0 and heading draw 1/2. -/
def dogCreatedC : Dog :=
  { dateKey := "2026-10-11", dogId := "dog5", dogName := "Kesha",
    dogImage := "dogs/kesha.png",
    lat := (randomPointInPolygon BC_BOUNDARY rndC 800).1,
    lng := (randomPointInPolygon BC_BOUNDARY rndC 800).2,
    speedMps := (1.75 + 0 * 0.5) * 0.44704,
    headingRad := 1/2 * MathPI * 2,
    lastUpdateMs := 0 }

/-- The `DogInfo` used by the creation witnesses. -/
def dogInfoC : DogInfo := { id := "dog5", name := "Kesha", image := "dogs/kesha.png" }

/-! # Theorems -/

/-! ## C6: randomPointInPolygon returns in-polygon points or the fallback -/

lemma rppGo_spec (poly : List (ℚ × ℚ)) (b : Bbox) (rnd : ℕ → ℚ × ℚ) :
    ∀ fuel k,
      pointInPolygon (rppGo poly b rnd k fuel).1 (rppGo poly b rnd k fuel).2 poly = true ∨
      (rppGo poly b rnd k fuel = FALLBACK_POINT ∧
        ∀ j < fuel, pointInPolygon (rppSample b (rnd (k + j))).1
          (rppSample b (rnd (k + j))).2 poly = false) := by
  intro fuel
  induction fuel with
  | zero => exact fun k => Or.inr ⟨rfl, fun j hj => absurd hj (Nat.not_lt_zero j)⟩
  | succ n ih =>
    intro k
    by_cases h : pointInPolygon (rppSample b (rnd k)).1 (rppSample b (rnd k)).2 poly = true
    · left
      simpa [rppGo, h] using h
    · have hf : pointInPolygon (rppSample b (rnd k)).1 (rppSample b (rnd k)).2 poly = false :=
        Bool.eq_false_iff.mpr (fun hc => h hc)
      have hstep : rppGo poly b rnd k (n + 1) = rppGo poly b rnd (k + 1) n := by
        simp [rppGo, hf]
      rcases ih (k + 1) with hin | ⟨hfb, hall⟩
      · left; rw [hstep]; exact hin
      · right
        refine ⟨hstep.trans hfb, ?_⟩
        intro j hj
        cases j with
        | zero => simpa using hf
        | succ i =>
          rw [show k + (i + 1) = k + 1 + i from by omega]
          exact hall i (by omega)

/-- C6: every value `randomPointInPolygon` returns (at the default 800
attempts) is either a point the ray-casting test accepts, or — only after all
800 samples were rejected — the fixed fallback coordinate; nothing else is
ever returned, for every polygon and every draw sequence (termination is
structural: the fuel counts down from 800). -/
theorem claim_C6 (poly : List (ℚ × ℚ)) (rnd : ℕ → ℚ × ℚ) :
    pointInPolygon (randomPointInPolygon poly rnd 800).1
      (randomPointInPolygon poly rnd 800).2 poly = true ∨
    (randomPointInPolygon poly rnd 800 = FALLBACK_POINT ∧
      ∀ k < 800, pointInPolygon (rppSample (polygonBbox poly) (rnd k)).1
        (rppSample (polygonBbox poly) (rnd k)).2 poly = false) := by
  have := rppGo_spec poly (polygonBbox poly) rnd 800 0
  simpa [randomPointInPolygon] using this

/-- Witness for C6: on the unit square with constant draws `(1/2, 1/2)`, the
first sample `(1/2, 1/2)` is accepted, and the theorem instantiates. -/
theorem claim_C6_witness :
    pointInPolygon
      (randomPointInPolygon [(0, 0), (0, 1), (1, 1), (1, 0)] (fun _ => (1/2, 1/2)) 800).1
      (randomPointInPolygon [(0, 0), (0, 1), (1, 1), (1, 0)] (fun _ => (1/2, 1/2)) 800).2
      [(0, 0), (0, 1), (1, 1), (1, 0)] = true ∨
    (randomPointInPolygon [(0, 0), (0, 1), (1, 1), (1, 0)] (fun _ => (1/2, 1/2)) 800 =
        FALLBACK_POINT ∧
      ∀ k < 800,
        pointInPolygon
          (rppSample (polygonBbox [(0, 0), (0, 1), (1, 1), (1, 0)]) ((fun _ => ((1:ℚ)/2, (1:ℚ)/2)) k)).1
          (rppSample (polygonBbox [(0, 0), (0, 1), (1, 1), (1, 0)]) ((fun _ => ((1:ℚ)/2, (1:ℚ)/2)) k)).2
          [(0, 0), (0, 1), (1, 1), (1, 0)] = false) :=
  claim_C6 [(0, 0), (0, 1), (1, 1), (1, 0)] (fun _ => (1/2, 1/2))

/-! ## The JS remainder on non-negative dividends -/

lemma jsMod_mem (x y : ℚ) (hy : 0 < y) (hx : 0 ≤ x) : 0 ≤ jsMod x y ∧ jsMod x y < y := by
  have hq : 0 ≤ x / y := div_nonneg hx hy.le
  have h1 : (⌊x / y⌋ : ℚ) ≤ x / y := Int.floor_le _
  have h2 : x / y < ⌊x / y⌋ + 1 := Int.lt_floor_add_one _
  have hxy : y * (x / y) = x := by field_simp
  unfold jsMod jsTrunc
  rw [if_pos hq]
  constructor <;> nlinarith

lemma MathPI_pos : 0 < MathPI := by norm_num [MathPI]

lemma MathPI_gt : 3 < MathPI := by norm_num [MathPI]

/-! ## Equations for the tick -/

lemma tickDog_none (dt : ℚ) (env : TickEnv) (s : ServerState) (h : s.dog = none) :
    tickDog dt env s = s := by
  simp only [tickDog, h]

lemma tickDog_inactive (dt : ℚ) (env : TickEnv) (s : ServerState) (h : env.active = false) :
    tickDog dt env s = s := by
  cases hd : s.dog with
  | none => simp only [tickDog, hd]
  | some d => simp [tickDog, hd, h]

lemma tickDog_commit (dt : ℚ) (env : TickEnv) (s : ServerState) (d : Dog)
    (hd : s.dog = some d) (ha : env.active = true)
    (hp : pointInPolygon (d.lat + metersToLat (d.speedMps * dt * env.cosH))
      (d.lng + metersToLng (d.speedMps * dt * env.sinH) env.cosLat) BC_BOUNDARY = true) :
    tickDog dt env s =
      { s with
        dog := some { d with
          lat := d.lat + metersToLat (d.speedMps * dt * env.cosH),
          lng := d.lng + metersToLng (d.speedMps * dt * env.sinH) env.cosLat,
          lastUpdateMs := env.now },
        dirty := true } := by
  simp only [tickDog, hd, ha, if_true]
  rw [if_pos hp]

lemma tickDog_bounce (dt : ℚ) (env : TickEnv) (s : ServerState) (d : Dog)
    (hd : s.dog = some d) (ha : env.active = true)
    (hp : pointInPolygon (d.lat + metersToLat (d.speedMps * dt * env.cosH))
      (d.lng + metersToLng (d.speedMps * dt * env.sinH) env.cosLat) BC_BOUNDARY = false) :
    tickDog dt env s =
      { s with
        dog := some { d with
          headingRad := jsMod (d.headingRad + MathPI + (env.rand - 0.5) * 0.6) (MathPI * 2),
          lastUpdateMs := env.now },
        dirty := true } := by
  simp only [tickDog, hd, ha, if_true, hp, Bool.false_eq_true, if_false]

lemma tickDog_preserves_inside (dt : ℚ) (env : TickEnv) (s : ServerState)
    (hs : InsideBoundary s) : InsideBoundary (tickDog dt env s) := by
  intro d' hd'
  cases hd : s.dog with
  | none => rw [tickDog_none dt env s hd] at hd'; exact hs d' hd'
  | some d =>
    by_cases ha : env.active = true
    · by_cases hp : pointInPolygon (d.lat + metersToLat (d.speedMps * dt * env.cosH))
        (d.lng + metersToLng (d.speedMps * dt * env.sinH) env.cosLat) BC_BOUNDARY = true
      · rw [tickDog_commit dt env s d hd ha hp] at hd'
        obtain rfl := (Option.some.inj hd').symm
        exact hp
      · rw [tickDog_bounce dt env s d hd ha (Bool.eq_false_iff.mpr hp)] at hd'
        obtain rfl := (Option.some.inj hd').symm
        exact hs d hd
    · rw [tickDog_inactive dt env s (Bool.eq_false_iff.mpr ha)] at hd'
      exact hs d' hd'

/-! ## C1: the committed position stays inside the polygon -/

/-- C1: a tick commits the candidate position only when `pointInPolygon`
accepts it and otherwise leaves the position unchanged, so from a state whose
position is inside the boundary polygon, the committed position after one
tick — and after any sequence of ticks — is still inside. -/
theorem claim_C1 (s : ServerState) (hs : InsideBoundary s) :
    (∀ dt env, InsideBoundary (tickDog dt env s)) ∧
    (∀ steps : List (ℚ × TickEnv), InsideBoundary (tickSeq steps s)) := by
  refine ⟨fun dt env => tickDog_preserves_inside dt env s hs, fun steps => ?_⟩
  induction steps generalizing s with
  | nil => exact hs
  | cons p rest ih =>
    exact ih (tickDog p.1 p.2 s) (tickDog_preserves_inside p.1 p.2 s hs)

lemma stateC_inside : InsideBoundary stateC := by
  intro d h
  obtain rfl : dogC = d := by simpa [stateC] using h
  norm_num [dogC, pointInPolygon, pipAux, pipHit, BC_BOUNDARY]

/-- Witness for C1 at the concrete state `stateC`, whose position
`(42.336, -71.17)` the polygon test accepts. -/
theorem claim_C1_witness :
    (∀ dt env, InsideBoundary (tickDog dt env stateC)) ∧
    (∀ steps : List (ℚ × TickEnv), InsideBoundary (tickSeq steps stateC)) :=
  claim_C1 stateC stateC_inside

/-! ## C5: the tick's functional behaviour -/

/-- C5: with a loaded dog during active hours, the candidate is the current
position displaced by `speed * dt` metres decomposed through the heading; an
accepted candidate is committed, a rejected one leaves the position unchanged
and reverses the heading by pi plus a random perturbation of magnitude at
most 0.3 rad (then wrapped by the JS `%`); both branches set `dirty` and
refresh `lastUpdateMs`; and the tick is a no-op when no dog is loaded or the
clock reports inactive. -/
theorem claim_C5 (dt : ℚ) (env : TickEnv) (s : ServerState) :
    (s.dog = none → tickDog dt env s = s) ∧
    (env.active = false → tickDog dt env s = s) ∧
    (∀ d, s.dog = some d → env.active = true →
      (pointInPolygon (d.lat + metersToLat (d.speedMps * dt * env.cosH))
          (d.lng + metersToLng (d.speedMps * dt * env.sinH) env.cosLat)
          BC_BOUNDARY = true →
        tickDog dt env s =
          { s with
            dog := some { d with
              lat := d.lat + metersToLat (d.speedMps * dt * env.cosH),
              lng := d.lng + metersToLng (d.speedMps * dt * env.sinH) env.cosLat,
              lastUpdateMs := env.now },
            dirty := true }) ∧
      (pointInPolygon (d.lat + metersToLat (d.speedMps * dt * env.cosH))
          (d.lng + metersToLng (d.speedMps * dt * env.sinH) env.cosLat)
          BC_BOUNDARY = false →
        tickDog dt env s =
          { s with
            dog := some { d with
              headingRad := jsMod (d.headingRad + MathPI + (env.rand - 0.5) * 0.6) (MathPI * 2),
              lastUpdateMs := env.now },
            dirty := true }) ∧
      (0 ≤ env.rand → env.rand < 1 → |(env.rand - 0.5) * 0.6| ≤ 0.3)) := by
  refine ⟨fun h => tickDog_none dt env s h, fun h => tickDog_inactive dt env s h,
    fun d hd ha => ⟨fun hp => tickDog_commit dt env s d hd ha hp,
      fun hp => tickDog_bounce dt env s d hd ha hp, fun h0 h1 => ?_⟩⟩
  rw [abs_le]
  constructor <;> nlinarith

/-- Witness for C5 at `dt = 1`, the environment `envC` and the state
`stateC`. -/
theorem claim_C5_witness :
    (stateC.dog = none → tickDog 1 envC stateC = stateC) ∧
    (envC.active = false → tickDog 1 envC stateC = stateC) ∧
    (∀ d, stateC.dog = some d → envC.active = true →
      (pointInPolygon (d.lat + metersToLat (d.speedMps * 1 * envC.cosH))
          (d.lng + metersToLng (d.speedMps * 1 * envC.sinH) envC.cosLat)
          BC_BOUNDARY = true →
        tickDog 1 envC stateC =
          { stateC with
            dog := some { d with
              lat := d.lat + metersToLat (d.speedMps * 1 * envC.cosH),
              lng := d.lng + metersToLng (d.speedMps * 1 * envC.sinH) envC.cosLat,
              lastUpdateMs := envC.now },
            dirty := true }) ∧
      (pointInPolygon (d.lat + metersToLat (d.speedMps * 1 * envC.cosH))
          (d.lng + metersToLng (d.speedMps * 1 * envC.sinH) envC.cosLat)
          BC_BOUNDARY = false →
        tickDog 1 envC stateC =
          { stateC with
            dog := some { d with
              headingRad := jsMod (d.headingRad + MathPI + (envC.rand - 0.5) * 0.6) (MathPI * 2),
              lastUpdateMs := envC.now },
            dirty := true }) ∧
      (0 ≤ envC.rand → envC.rand < 1 → |(envC.rand - 0.5) * 0.6| ≤ 0.3)) :=
  claim_C5 1 envC stateC

/-! ## C3: flush attempts a write iff loaded, dirty and active -/

/-- C3: `flushToFirestore` attempts a store write iff a dog is loaded, the
dirty flag is set and the clock reports active; a successful write clears the
dirty flag (and applies the write to the store), a failed one leaves it set
(and the store unchanged); and after a first call with a succeeding write, an
immediately following call with no intervening mutation attempts no write and
changes nothing, so the pair performs at most the first call's single
write. -/
theorem claim_C3 (active writeOk : Bool) (now : ℤ) (s : ServerState) :
    ((flushToFirestore active writeOk now s).2 = true ↔
      (s.dog ≠ none ∧ s.dirty = true ∧ active = true)) ∧
    (∀ d, s.dog = some d → s.dirty = true → active = true →
      (writeOk = true →
        (flushToFirestore active writeOk now s).1.dirty = false ∧
        (flushToFirestore active writeOk now s).1.store = flushWrite s.store d now) ∧
      (writeOk = false →
        (flushToFirestore active writeOk now s).1.dirty = true ∧
        (flushToFirestore active writeOk now s).1.store = s.store)) ∧
    (writeOk = true → ∀ (w2 : Bool) (n2 : ℤ),
      flushToFirestore active w2 n2 (flushToFirestore active writeOk now s).1 =
        ((flushToFirestore active writeOk now s).1, false)) := by
  cases hd : s.dog with
  | none =>
    refine ⟨by simp [flushToFirestore, hd], by simp [hd], ?_⟩
    intro hw w2 n2
    simp [flushToFirestore, hd]
  | some d =>
    cases hdi : s.dirty with
    | false =>
      refine ⟨by simp [flushToFirestore, hd, hdi], by simp [hdi], ?_⟩
      intro hw w2 n2
      simp [flushToFirestore, hd, hdi]
    | true =>
      cases ha : active with
      | false =>
        refine ⟨by simp [flushToFirestore, hd, hdi, ha], by simp [ha], ?_⟩
        intro hw w2 n2
        simp [flushToFirestore, hd, hdi, ha]
      | true =>
        cases hw : writeOk with
        | false =>
          refine ⟨by simp [flushToFirestore, hd, hdi, ha, hw], ?_, by simp⟩
          intro d2 hd2 _ _
          obtain rfl := Option.some.inj hd2
          simp [flushToFirestore, hd, hdi, ha, hw]
        | true =>
          refine ⟨by simp [flushToFirestore, hd, hdi, ha, hw], ?_, ?_⟩
          · intro d2 hd2 _ _
            obtain rfl := Option.some.inj hd2
            simp [flushToFirestore, hd, hdi, ha, hw]
          · intro _ w2 n2
            simp [flushToFirestore, hd, hdi, ha, hw]

/-- Witness for C3: dog loaded, dirty, active, write succeeding. -/
theorem claim_C3_witness :
    ((flushToFirestore true true 7 stateDirty).2 = true ↔
      (stateDirty.dog ≠ none ∧ stateDirty.dirty = true ∧ (true : Bool) = true)) ∧
    (∀ d, stateDirty.dog = some d → stateDirty.dirty = true → (true : Bool) = true →
      ((true : Bool) = true →
        (flushToFirestore true true 7 stateDirty).1.dirty = false ∧
        (flushToFirestore true true 7 stateDirty).1.store = flushWrite stateDirty.store d 7) ∧
      ((true : Bool) = false →
        (flushToFirestore true true 7 stateDirty).1.dirty = true ∧
        (flushToFirestore true true 7 stateDirty).1.store = stateDirty.store)) ∧
    ((true : Bool) = true → ∀ (w2 : Bool) (n2 : ℤ),
      flushToFirestore true w2 n2 (flushToFirestore true true 7 stateDirty).1 =
        ((flushToFirestore true true 7 stateDirty).1, false)) :=
  claim_C3 true true 7 stateDirty

/-! ## C4: a failed creation write is retried and completed by a flush -/

/-- C4: when `loadOrCreateDog` synthesizes a dog for a missing record and the
initial persist fails, the dirty flag is set; a subsequent successful flush
(with the clock active) does attempt the write and leaves a persisted record
under that date key whose position, heading and speed are the in-memory
dog's. -/
theorem claim_C4 (dateKey : String) (dogInfo : DogInfo) (rnd : ℕ → ℚ × ℚ)
    (speedR headR : ℚ) (now now2 : ℤ) (s : ServerState) :
    (loadOrCreateDog dateKey dogInfo .notFound rnd speedR headR false now s).dirty = true ∧
    (∀ d, (loadOrCreateDog dateKey dogInfo .notFound rnd speedR headR false now s).dog = some d →
      d.dateKey = dateKey ∧
      (flushToFirestore true true now2
        (loadOrCreateDog dateKey dogInfo .notFound rnd speedR headR false now s)).2 = true ∧
      ((flushToFirestore true true now2
        (loadOrCreateDog dateKey dogInfo .notFound rnd speedR headR false now s)).1.store
          dateKey).isSome = true ∧
      (∀ doc,
        (flushToFirestore true true now2
          (loadOrCreateDog dateKey dogInfo .notFound rnd speedR headR false now s)).1.store
            dateKey = some doc →
        doc.lat = d.lat ∧ doc.lng = d.lng ∧ doc.headingRad = d.headingRad ∧
        doc.speedMps = d.speedMps)) := by
  constructor
  · simp [loadOrCreateDog]
  · intro d hd
    have hdog : (loadOrCreateDog dateKey dogInfo .notFound rnd speedR headR false now s).dog =
        some {
          dateKey := dateKey, dogId := dogInfo.id, dogName := dogInfo.name,
          dogImage := dogInfo.image,
          lat := (randomPointInPolygon BC_BOUNDARY rnd 800).1,
          lng := (randomPointInPolygon BC_BOUNDARY rnd 800).2,
          speedMps := (1.75 + speedR * 0.5) * 0.44704,
          headingRad := headR * MathPI * 2,
          lastUpdateMs := now } := by
      simp [loadOrCreateDog]
    obtain rfl := (Option.some.inj (hdog.symm.trans hd))
    refine ⟨rfl, ?_, ?_, ?_⟩
    · simp [flushToFirestore, loadOrCreateDog]
    · cases hsd : s.store dateKey with
      | none => simp [flushToFirestore, loadOrCreateDog, flushWrite, hsd]
      | some old => simp [flushToFirestore, loadOrCreateDog, flushWrite, hsd]
    · intro doc hdoc
      cases hsd : s.store dateKey with
      | none =>
        simp [flushToFirestore, loadOrCreateDog, flushWrite, hsd] at hdoc
        rw [← hdoc]
        exact ⟨rfl, rfl, rfl, rfl⟩
      | some old =>
        simp [flushToFirestore, loadOrCreateDog, flushWrite, hsd] at hdoc
        rw [← hdoc]
        exact ⟨rfl, rfl, rfl, rfl⟩

/-- Witness for C4 at concrete inputs. -/
theorem claim_C4_witness :
    (loadOrCreateDog "2026-10-11" dogInfoC .notFound rndC 0 (1/2) false 0 stateC).dirty = true ∧
    (∀ d, (loadOrCreateDog "2026-10-11" dogInfoC .notFound rndC 0 (1/2) false 0 stateC).dog = some d →
      d.dateKey = "2026-10-11" ∧
      (flushToFirestore true true 9
        (loadOrCreateDog "2026-10-11" dogInfoC .notFound rndC 0 (1/2) false 0 stateC)).2 = true ∧
      ((flushToFirestore true true 9
        (loadOrCreateDog "2026-10-11" dogInfoC .notFound rndC 0 (1/2) false 0 stateC)).1.store
          "2026-10-11").isSome = true ∧
      (∀ doc,
        (flushToFirestore true true 9
          (loadOrCreateDog "2026-10-11" dogInfoC .notFound rndC 0 (1/2) false 0 stateC)).1.store
            "2026-10-11" = some doc →
        doc.lat = d.lat ∧ doc.lng = d.lng ∧ doc.headingRad = d.headingRad ∧
        doc.speedMps = d.speedMps)) :=
  claim_C4 "2026-10-11" dogInfoC rndC 0 (1/2) 0 9 stateC

/-! ## C10: every heading mutation lands in [0, 2π) -/

/-- C10: each operation that sets or mutates the heading leaves
`headingRad` in `[0, 2π)` (with `2π` the doubled `Math.PI`): the synthesized
heading at instance creation is `random * π * 2` with the draw in `[0, 1)`;
the tick's bounce deflection and the scheduled perturbation both end in a
reduction of a non-negative value modulo `2π`, so from a non-negative current
heading the new heading is non-negative and below `2π`. -/
theorem claim_C10 :
    (∀ (dateKey : String) (dogInfo : DogInfo) (read : ReadResult) (rnd : ℕ → ℚ × ℚ)
        (speedR headR : ℚ) (writeOk : Bool) (now : ℤ) (s : ServerState),
      (read = ReadResult.readErr ∨ read = ReadResult.notFound) →
      0 ≤ headR → headR < 1 →
      ∀ d, (loadOrCreateDog dateKey dogInfo read rnd speedR headR writeOk now s).dog = some d →
        0 ≤ d.headingRad ∧ d.headingRad < MathPI * 2) ∧
    (∀ (dt : ℚ) (env : TickEnv) (s : ServerState) (d : Dog),
      s.dog = some d → env.active = true → 0 ≤ d.headingRad →
      0 ≤ env.rand → env.rand < 1 →
      pointInPolygon (d.lat + metersToLat (d.speedMps * dt * env.cosH))
        (d.lng + metersToLng (d.speedMps * dt * env.sinH) env.cosLat) BC_BOUNDARY = false →
      ∀ d', (tickDog dt env s).dog = some d' →
        0 ≤ d'.headingRad ∧ d'.headingRad < MathPI * 2) ∧
    (∀ (r : ℚ) (s : ServerState) (d : Dog),
      s.dog = some d → 0 ≤ d.headingRad → 0 ≤ r → r < 1 →
      ∀ d', (headingChangeStep true r s).dog = some d' →
        0 ≤ d'.headingRad ∧ d'.headingRad < MathPI * 2) := by
  have hpi := MathPI_gt
  refine ⟨?_, ?_, ?_⟩
  · intro dateKey dogInfo read rnd speedR headR writeOk now s hread h0 h1 d hd
    have hh : d.headingRad = headR * MathPI * 2 := by
      rcases hread with rfl | rfl
      · have : (loadOrCreateDog dateKey dogInfo .readErr rnd speedR headR writeOk now s).dog =
            some {
              dateKey := dateKey, dogId := dogInfo.id, dogName := dogInfo.name,
              dogImage := dogInfo.image,
              lat := (randomPointInPolygon BC_BOUNDARY rnd 800).1,
              lng := (randomPointInPolygon BC_BOUNDARY rnd 800).2,
              speedMps := (1.75 + speedR * 0.5) * 0.44704,
              headingRad := headR * MathPI * 2,
              lastUpdateMs := now } := by simp [loadOrCreateDog]
        obtain rfl := (Option.some.inj (this.symm.trans hd))
        rfl
      · cases hw : writeOk with
        | true =>
          have : (loadOrCreateDog dateKey dogInfo .notFound rnd speedR headR true now s).dog =
              some {
                dateKey := dateKey, dogId := dogInfo.id, dogName := dogInfo.name,
                dogImage := dogInfo.image,
                lat := (randomPointInPolygon BC_BOUNDARY rnd 800).1,
                lng := (randomPointInPolygon BC_BOUNDARY rnd 800).2,
                speedMps := (1.75 + speedR * 0.5) * 0.44704,
                headingRad := headR * MathPI * 2,
                lastUpdateMs := now } := by simp [loadOrCreateDog]
          rw [hw] at hd
          obtain rfl := (Option.some.inj (this.symm.trans hd))
          rfl
        | false =>
          have : (loadOrCreateDog dateKey dogInfo .notFound rnd speedR headR false now s).dog =
              some {
                dateKey := dateKey, dogId := dogInfo.id, dogName := dogInfo.name,
                dogImage := dogInfo.image,
                lat := (randomPointInPolygon BC_BOUNDARY rnd 800).1,
                lng := (randomPointInPolygon BC_BOUNDARY rnd 800).2,
                speedMps := (1.75 + speedR * 0.5) * 0.44704,
                headingRad := headR * MathPI * 2,
                lastUpdateMs := now } := by simp [loadOrCreateDog]
          rw [hw] at hd
          obtain rfl := (Option.some.inj (this.symm.trans hd))
          rfl
    rw [hh]
    constructor
    · positivity
    · nlinarith
  · intro dt env s d hd ha hh h0 h1 hp d' hd'
    rw [tickDog_bounce dt env s d hd ha hp] at hd'
    obtain rfl := (Option.some.inj hd').symm
    have := jsMod_mem (d.headingRad + MathPI + (env.rand - 0.5) * 0.6) (MathPI * 2)
      (by nlinarith) (by nlinarith)
    exact this
  · intro r s d hd hh h0 h1 d' hd'
    have heq : headingChangeStep true r s =
        { s with
          dog := some { d with
            headingRad := jsMod (d.headingRad + (r - 0.5) * (MathPI / 2) + MathPI * 2) (MathPI * 2) },
          dirty := true } := by
      simp [headingChangeStep, hd]
    rw [heq] at hd'
    obtain rfl := (Option.some.inj hd').symm
    exact jsMod_mem (d.headingRad + (r - 0.5) * (MathPI / 2) + MathPI * 2) (MathPI * 2)
      (by nlinarith) (by nlinarith)

/-- Witness for C10: creation via the read-error branch with heading draw
1/2, a bounce tick of the fast dog (whose candidate leaves the polygon), and
one scheduled perturbation, all landing in `[0, 2π)`. -/
theorem claim_C10_witness :
    (0 ≤ dogCreatedC.headingRad ∧ dogCreatedC.headingRad < MathPI * 2) ∧
    (0 ≤ (jsMod (dogFast.headingRad + MathPI + ((1:ℚ)/2 - 0.5) * 0.6) (MathPI * 2)) ∧
      (jsMod (dogFast.headingRad + MathPI + ((1:ℚ)/2 - 0.5) * 0.6) (MathPI * 2)) < MathPI * 2) ∧
    (0 ≤ (jsMod (dogC.headingRad + ((1:ℚ)/2 - 0.5) * (MathPI / 2) + MathPI * 2) (MathPI * 2)) ∧
      (jsMod (dogC.headingRad + ((1:ℚ)/2 - 0.5) * (MathPI / 2) + MathPI * 2) (MathPI * 2)) < MathPI * 2) := by
  have hpipF : pointInPolygon
      (dogFast.lat + metersToLat (dogFast.speedMps * 1 * envC.cosH))
      (dogFast.lng + metersToLng (dogFast.speedMps * 1 * envC.sinH) envC.cosLat)
      BC_BOUNDARY = false := by
    norm_num [dogFast, dogC, envC, metersToLat, metersToLng, pointInPolygon, pipAux, pipHit,
      BC_BOUNDARY]
  refine ⟨claim_C10.1 "2026-10-11" dogInfoC .readErr rndC 0 (1/2) false 0 stateC
      (Or.inl rfl) (by norm_num) (by norm_num) dogCreatedC rfl, ?_, ?_⟩
  · have := claim_C10.2.1 1 envC stateFast dogFast rfl rfl
      (by norm_num [dogFast, dogC]) (by norm_num [envC]) (by norm_num [envC]) hpipF
      { dogFast with
        headingRad := jsMod (dogFast.headingRad + MathPI + (envC.rand - 0.5) * 0.6) (MathPI * 2),
        lastUpdateMs := envC.now }
      (by rw [tickDog_bounce 1 envC stateFast dogFast rfl rfl hpipF])
    simpa [envC] using this
  · have := claim_C10.2.2 (1/2) stateC dogC rfl (by norm_num [dogC]) (by norm_num) (by norm_num)
      { dogC with
        headingRad := jsMod (dogC.headingRad + ((1:ℚ)/2 - 0.5) * (MathPI / 2) + MathPI * 2) (MathPI * 2) }
      (by simp [headingChangeStep, stateC])
    simpa using this

/-! ## Calendar lemmas -/

lemma isLeap_iff (y : ℤ) : isLeap y = true ↔ ((y % 4 = 0 ∧ y % 100 ≠ 0) ∨ y % 400 = 0) := by
  simp [isLeap]

lemma daysInMonth_pos (y : ℤ) (m : ℕ) : 0 < daysInMonth y m := by
  unfold daysInMonth
  split <;> (try split) <;> norm_num

lemma dBM_succ (y : ℤ) {m : ℕ} (h1 : 1 ≤ m) (h2 : m ≤ 11) :
    daysBeforeMonth y (m + 1) = daysBeforeMonth y m + daysInMonth y m := by
  interval_cases m <;> cases hL : isLeap y <;> simp [daysBeforeMonth, daysInMonth, hL]

lemma dBM_twelve (y : ℤ) :
    daysBeforeMonth y 12 = 334 + (if isLeap y then 1 else 0) := by
  cases hL : isLeap y <;> simp [daysBeforeMonth, hL]

lemma dBY_succ (y : ℤ) :
    daysBeforeYear (y + 1) = daysBeforeYear y + 365 + (if isLeap y then 1 else 0) := by
  have h := isLeap_iff y
  cases hL : isLeap y
  · rw [hL] at h
    simp only [Bool.false_eq_true, false_iff] at h
    push_neg at h
    rw [if_neg Bool.false_ne_true]
    unfold daysBeforeYear
    omega
  · rw [hL] at h
    simp only [true_iff] at h
    rw [if_pos rfl]
    unfold daysBeforeYear
    rcases h with ⟨h4, h100⟩ | h400 <;> omega

lemma rataDie_def (t : YMD) :
    rataDie t = daysBeforeYear t.y + daysBeforeMonth t.y t.m + t.d := rfl

lemma rataDie_prevDay (t : YMD) (h : Valid t) :
    Valid (prevDayJS t) ∧ rataDie (prevDayJS t) + 1 = rataDie t := by
  obtain ⟨hm1, hm12, hd1, hdM⟩ := h
  unfold prevDayJS
  split_ifs with h2 h3
  · refine ⟨⟨hm1, hm12, ?_, ?_⟩, ?_⟩
    · show 1 ≤ t.d - 1
      omega
    · show t.d - 1 ≤ daysInMonth t.y t.m
      omega
    · have e1 : rataDie { t with d := t.d - 1 } =
          daysBeforeYear t.y + daysBeforeMonth t.y t.m + (↑(t.d - 1) : ℤ) := rfl
      rw [e1, rataDie_def]
      omega
  · have hstep := dBM_succ t.y (m := t.m - 1) (by omega) (by omega)
    rw [show t.m - 1 + 1 = t.m from by omega] at hstep
    refine ⟨⟨?_, ?_, ?_, ?_⟩, ?_⟩
    · show 1 ≤ t.m - 1
      omega
    · show t.m - 1 ≤ 12
      omega
    · show 1 ≤ daysInMonth t.y (t.m - 1)
      exact daysInMonth_pos _ _
    · show daysInMonth t.y (t.m - 1) ≤ daysInMonth t.y (t.m - 1)
      exact le_refl _
    · have e1 : rataDie { t with m := t.m - 1, d := daysInMonth t.y (t.m - 1) } =
          daysBeforeYear t.y + daysBeforeMonth t.y (t.m - 1) +
            (↑(daysInMonth t.y (t.m - 1)) : ℤ) := rfl
      rw [e1, rataDie_def]
      omega
  · have hm : t.m = 1 := by omega
    have hd : t.d = 1 := by omega
    have hdb := dBY_succ (t.y - 1)
    rw [show t.y - 1 + 1 = t.y from by ring] at hdb
    have hdbm := dBM_twelve (t.y - 1)
    refine ⟨⟨by norm_num, by norm_num, by norm_num, ?_⟩, ?_⟩
    · show (31 : ℕ) ≤ daysInMonth (t.y - 1) 12
      norm_num [daysInMonth]
    · have e1 : rataDie ⟨t.y - 1, 12, 31⟩ =
          daysBeforeYear (t.y - 1) + daysBeforeMonth (t.y - 1) 12 + (31 : ℤ) := rfl
      have e2 := rataDie_def t
      rw [hm, hd] at e2
      have hdbm1 : daysBeforeMonth t.y 1 = 0 := rfl
      rw [e1, e2]
      cases hL : isLeap (t.y - 1)
      · rw [hL] at hdb hdbm
        simp only [Bool.false_eq_true, if_false] at hdb hdbm
        omega
      · rw [hL] at hdb hdbm
        simp only [if_true] at hdb hdbm
        omega

lemma rataDie_nextDay (t : YMD) (h : Valid t) :
    Valid (nextDayJS t) ∧ rataDie (nextDayJS t) = rataDie t + 1 := by
  obtain ⟨hm1, hm12, hd1, hdM⟩ := h
  unfold nextDayJS
  split_ifs with h2 h3
  · refine ⟨⟨hm1, hm12, ?_, ?_⟩, ?_⟩
    · show 1 ≤ t.d + 1
      omega
    · show t.d + 1 ≤ daysInMonth t.y t.m
      omega
    · have e1 : rataDie { t with d := t.d + 1 } =
          daysBeforeYear t.y + daysBeforeMonth t.y t.m + (↑(t.d + 1) : ℤ) := rfl
      rw [e1, rataDie_def]
      omega
  · have hstep := dBM_succ t.y (m := t.m) (by omega) (by omega)
    refine ⟨⟨?_, ?_, ?_, ?_⟩, ?_⟩
    · show 1 ≤ t.m + 1
      omega
    · show t.m + 1 ≤ 12
      omega
    · show 1 ≤ 1
      exact le_refl _
    · show 1 ≤ daysInMonth t.y (t.m + 1)
      exact daysInMonth_pos _ _
    · have e1 : rataDie { t with m := t.m + 1, d := 1 } =
          daysBeforeYear t.y + daysBeforeMonth t.y (t.m + 1) + (1 : ℤ) := rfl
      rw [e1, rataDie_def]
      omega
  · have hm : t.m = 12 := by omega
    have hd : t.d = 31 := by
      have e : daysInMonth t.y 12 = 31 := rfl
      rw [hm] at h2 hdM
      omega
    have hdb := dBY_succ t.y
    have hdbm := dBM_twelve t.y
    refine ⟨⟨by norm_num, by norm_num, by norm_num, ?_⟩, ?_⟩
    · show (1 : ℕ) ≤ daysInMonth (t.y + 1) 1
      norm_num [daysInMonth]
    · have e1 : rataDie ⟨t.y + 1, 1, 1⟩ =
          daysBeforeYear (t.y + 1) + daysBeforeMonth (t.y + 1) 1 + (1 : ℤ) := rfl
      have e2 := rataDie_def t
      rw [hm, hd] at e2
      have hdbm1 : daysBeforeMonth (t.y + 1) 1 = 0 := rfl
      rw [e1, e2]
      cases hL : isLeap t.y
      · rw [hL] at hdb hdbm
        simp only [Bool.false_eq_true, if_false] at hdb hdbm
        omega
      · rw [hL] at hdb hdbm
        simp only [if_true] at hdb hdbm
        omega

/-! ## C2: the spawn date key -/

/-- C2: `spawnDateKey` returns the current calendar date when the local hour
is at least 10; the previous calendar date — correctly decremented across
month and year boundaries, i.e. a valid date whose canonical day number is
exactly one less — when the hour is below 2; and nothing when the hour is in
`[2, 10)`. -/
theorem claim_C2 (t : YMD) (hour : ℕ) (hv : Valid t) :
    (10 ≤ hour → spawnDateKey t hour = some (formatDate t)) ∧
    (hour < 2 → spawnDateKey t hour = some (formatDate (prevDayJS t)) ∧
      Valid (prevDayJS t) ∧ rataDie (prevDayJS t) + 1 = rataDie t) ∧
    (2 ≤ hour → hour < 10 → spawnDateKey t hour = none) := by
  refine ⟨fun h => by simp [spawnDateKey, h], fun h => ?_, fun hlo hhi => ?_⟩
  · have hp := rataDie_prevDay t hv
    refine ⟨?_, hp.1, hp.2⟩
    rw [spawnDateKey, if_neg (by omega), if_pos h]
  · rw [spawnDateKey, if_neg (by omega), if_neg (by omega)]

/-- Witness for C2 at 2024-03-01, hour 1: the spawn date is the leap day
2024-02-29, one rata-die day earlier. -/
theorem claim_C2_witness :
    (10 ≤ 1 → spawnDateKey ⟨2024, 3, 1⟩ 1 = some (formatDate ⟨2024, 3, 1⟩)) ∧
    (1 < 2 → spawnDateKey ⟨2024, 3, 1⟩ 1 = some (formatDate (prevDayJS ⟨2024, 3, 1⟩)) ∧
      Valid (prevDayJS ⟨2024, 3, 1⟩) ∧
      rataDie (prevDayJS ⟨2024, 3, 1⟩) + 1 = rataDie ⟨2024, 3, 1⟩) ∧
    (2 ≤ 1 → 1 < 10 → spawnDateKey ⟨2024, 3, 1⟩ 1 = none) :=
  claim_C2 ⟨2024, 3, 1⟩ 1 (by constructor <;> norm_num [daysInMonth])

/-! ## C8: resolving the identity of a date -/

/-- C8: `getDogForDate` indexes the stored week schedule by the Monday-based
day index; for any Wednesday (JS weekday 3) with the week schedule
`[dog3, dog1, dog5, dog2, dog7, dog4, dog6]` it returns the identity `dog5`
(Kesha); and it falls back to the roster's first entry whenever the index is
out of range or the stored id matches no roster entry. -/
theorem claim_C8 (t : YMD) (schedule : List String) :
    (jsGetDay t = 3 →
      getDogForDate ["dog3", "dog1", "dog5", "dog2", "dog7", "dog4", "dog6"] t =
        { id := "dog5", name := "Kesha", image := "dogs/kesha.png" }) ∧
    (schedule[getDayOfWeek t]? = none → getDogForDate schedule t = DOGS.headI) ∧
    (∀ dogId, schedule[getDayOfWeek t]? = some dogId →
      DOGS.find? (fun d => d.id == dogId) = none →
      getDogForDate schedule t = DOGS.headI) := by
  refine ⟨fun h => ?_, fun h => ?_, fun dogId hid hfind => ?_⟩
  · have hw : getDayOfWeek t = 2 := by simp [getDayOfWeek, h]
    simp only [getDogForDate, hw]
    rfl
  · simp only [getDogForDate, h]
  · simp only [getDogForDate, hid, hfind, Option.getD_none]

/-- Witness for C8: 2026-10-14 is a Wednesday (rata die 739903, weekday 3),
and with the scenario schedule the resolver returns Kesha (`dog5`). -/
theorem claim_C8_witness :
    (jsGetDay ⟨2026, 10, 14⟩ = 3 →
      getDogForDate ["dog3", "dog1", "dog5", "dog2", "dog7", "dog4", "dog6"] ⟨2026, 10, 14⟩ =
        { id := "dog5", name := "Kesha", image := "dogs/kesha.png" }) ∧
    (([] : List String)[getDayOfWeek ⟨2026, 10, 14⟩]? = none →
      getDogForDate [] ⟨2026, 10, 14⟩ = DOGS.headI) ∧
    (∀ dogId, ([] : List String)[getDayOfWeek ⟨2026, 10, 14⟩]? = some dogId →
      DOGS.find? (fun d => d.id == dogId) = none →
      getDogForDate [] ⟨2026, 10, 14⟩ = DOGS.headI) :=
  claim_C8 ⟨2026, 10, 14⟩ []

/-! ## C7: the weekly shuffle -/

lemma insertRand_perm {α : Type} (cmp : RandCmp) (a : α) :
    ∀ (l : List α) (k : ℕ), (insertRand cmp k a l).1.Perm (a :: l) := by
  intro l
  induction l with
  | nil => intro k; simp [insertRand]
  | cons b bs ih =>
    intro k
    by_cases h : cmp k
    · simp [insertRand, h]
    · simp only [insertRand, h, Bool.false_eq_true, if_false]
      exact ((ih (k + 1)).cons b).trans (List.Perm.swap a b bs)

lemma jsRandomSortAux_perm {α : Type} (cmp : RandCmp) :
    ∀ (l acc : List α) (k : ℕ), (jsRandomSortAux cmp acc k l).Perm (l ++ acc) := by
  intro l
  induction l with
  | nil => intro acc k; simp [jsRandomSortAux]
  | cons a as ih =>
    intro acc k
    simp only [jsRandomSortAux]
    refine (ih _ _).trans ?_
    have h1 : (as ++ (insertRand cmp k a acc).1).Perm (as ++ (a :: acc)) :=
      List.Perm.append_left as (insertRand_perm cmp a acc k)
    refine h1.trans ?_
    exact List.perm_middle

lemma jsRandomSort_perm {α : Type} (cmp : RandCmp) (l : List α) :
    (jsRandomSort cmp l).Perm l := by
  have := jsRandomSortAux_perm cmp l [] 0
  simpa [jsRandomSort] using this

lemma noUniformShuffle (m : ℕ)
    (f : (Fin m → Fin jsRandomStates) → Equiv.Perm (Fin DOGS.length)) :
    ¬ IsUniformShuffle m f := by
  intro hu
  have hcard : Fintype.card (Fin m → Fin jsRandomStates) =
      ∑ σ : Equiv.Perm (Fin DOGS.length), shuffleCount m f σ := by
    rw [← Finset.card_univ]
    exact Finset.card_eq_sum_card_fiberwise (fun v _ => Finset.mem_univ (f v))
  have hconst : ∀ σ ∈ (Finset.univ : Finset (Equiv.Perm (Fin DOGS.length))),
      shuffleCount m f σ = shuffleCount m f 1 := fun σ _ => hu σ 1
  rw [Finset.sum_congr rfl hconst, Finset.sum_const, smul_eq_mul, Finset.card_univ,
    Fintype.card_perm, Fintype.card_fun, Fintype.card_fin, Fintype.card_fin] at hcard
  have hfac : (Fintype.card (Fin DOGS.length)).factorial = 5040 := by
    rw [Fintype.card_fin]
    norm_num [DOGS, Nat.factorial]
  rw [hfac] at hcard
  have h315 : (315 : ℕ) ∣ jsRandomStates ^ m :=
    ⟨16 * shuffleCount m f 1, by rw [hcard]; ring⟩
  rw [show jsRandomStates ^ m = 2 ^ (53 * m) from by rw [jsRandomStates, ← pow_mul]] at h315
  have hco : Nat.Coprime 315 (2 ^ (53 * m)) := Nat.Coprime.pow_right _ (by decide)
  have h1 := hco.eq_one_of_dvd h315
  omega

/-- Counterexample for C7 as stated: no shuffle procedure driven by finitely
many `Math.random()` draws (each uniform over the `2^53` possible doubles)
can produce all `7! = 5040` orderings of the roster with equal probability —
every outcome probability has a power-of-two denominator, and 5040 has the
odd factor 315. The claimed uniform random permutation therefore cannot be
what line 190 computes, for any number of draws and any engine sort. -/
theorem claim_C7_counterexample :
    ¬ ∃ (m : ℕ) (f : (Fin m → Fin jsRandomStates) → Equiv.Perm (Fin DOGS.length)),
      IsUniformShuffle m f := by
  rintro ⟨m, f, h⟩
  exact noUniformShuffle m f h

/-- C7 (amended): when no schedule is stored for the week key,
`getOrCreateWeeklySchedule` returns and persists the id list of a
permutation of the roster — an ordered list containing each of the 7 ids
exactly once — but the shuffle is not a uniform random permutation: no
procedure consuming finitely many `Math.random()` draws induces the uniform
distribution on the 5040 orderings. -/
theorem claim_C7 :
    (∀ (cmp : RandCmp) (store : WeeklyStore) (weekKey : String),
      store weekKey = none →
      (getOrCreateWeeklySchedule cmp store weekKey).1 =
        (jsRandomSort cmp DOGS).map DogInfo.id ∧
      (getOrCreateWeeklySchedule cmp store weekKey).2 weekKey =
        some (getOrCreateWeeklySchedule cmp store weekKey).1 ∧
      (getOrCreateWeeklySchedule cmp store weekKey).1.Perm (DOGS.map DogInfo.id) ∧
      (∀ dogId ∈ DOGS.map DogInfo.id,
        (getOrCreateWeeklySchedule cmp store weekKey).1.count dogId = 1) ∧
      (getOrCreateWeeklySchedule cmp store weekKey).1.length = 7) ∧
    (∀ (m : ℕ) (f : (Fin m → Fin jsRandomStates) → Equiv.Perm (Fin DOGS.length)),
      ¬ IsUniformShuffle m f) := by
  refine ⟨fun cmp store weekKey hnone => ?_, noUniformShuffle⟩
  have hsort : (jsRandomSort cmp DOGS).Perm DOGS := jsRandomSort_perm cmp DOGS
  have h1 : (getOrCreateWeeklySchedule cmp store weekKey).1 =
      (jsRandomSort cmp DOGS).map DogInfo.id := by
    simp [getOrCreateWeeklySchedule, hnone]
  refine ⟨h1, ?_, ?_, ?_, ?_⟩
  · simp [getOrCreateWeeklySchedule, hnone]
  · rw [h1]
    exact hsort.map _
  · intro dogId hmem
    rw [h1, (hsort.map DogInfo.id).count_eq]
    fin_cases hmem <;> decide
  · rw [h1, List.length_map, hsort.length_eq]
    rfl

/-- Witness for C7 (amended): the all-true comparator stream on an empty
store; the schedule produced is a permutation of the seven roster ids. -/
theorem claim_C7_witness :
    (getOrCreateWeeklySchedule (fun _ => true) (fun _ => none) "2026-W42").1 =
      (jsRandomSort (fun _ => true) DOGS).map DogInfo.id ∧
    (getOrCreateWeeklySchedule (fun _ => true) (fun _ => none) "2026-W42").2 "2026-W42" =
      some (getOrCreateWeeklySchedule (fun _ => true) (fun _ => none) "2026-W42").1 ∧
    (getOrCreateWeeklySchedule (fun _ => true) (fun _ => none) "2026-W42").1.Perm
      (DOGS.map DogInfo.id) ∧
    (∀ dogId ∈ DOGS.map DogInfo.id,
      (getOrCreateWeeklySchedule (fun _ => true) (fun _ => none) "2026-W42").1.count dogId = 1) ∧
    (getOrCreateWeeklySchedule (fun _ => true) (fun _ => none) "2026-W42").1.length = 7 :=
  claim_C7.1 (fun _ => true) (fun _ => none) "2026-W42" rfl

/-! ## Day-iteration algebra for the week key -/

lemma jsGetDay_nonneg (t : YMD) : 0 ≤ jsGetDay t := Int.emod_nonneg _ (by norm_num)

lemma jsGetDay_lt (t : YMD) : jsGetDay t < 7 := Int.emod_lt_of_pos _ (by norm_num)

lemma prev_next (t : YMD) (hv : Valid t) : prevDayJS (nextDayJS t) = t := by
  obtain ⟨y, m, d⟩ := t
  obtain ⟨hm1, hm12, hd1, hdM⟩ := hv
  dsimp only at hm1 hm12 hd1 hdM
  unfold nextDayJS
  dsimp only
  split_ifs with h2 h3
  · unfold prevDayJS
    dsimp only
    rw [if_pos (by omega)]
    congr 1 <;> omega
  · unfold prevDayJS
    dsimp only
    rw [if_neg (by omega), if_pos (by omega)]
    have hm : m + 1 - 1 = m := by omega
    rw [hm]
    congr 1 <;> omega
  · unfold prevDayJS
    dsimp only
    rw [if_neg (by omega), if_neg (by omega)]
    have h31 : daysInMonth y 12 = 31 := rfl
    rw [show m = 12 from by omega] at h2 hdM
    congr 1 <;> omega

lemma next_prev (t : YMD) (hv : Valid t) : nextDayJS (prevDayJS t) = t := by
  obtain ⟨y, m, d⟩ := t
  obtain ⟨hm1, hm12, hd1, hdM⟩ := hv
  dsimp only at hm1 hm12 hd1 hdM
  unfold prevDayJS
  dsimp only
  split_ifs with h2 h3
  · unfold nextDayJS
    dsimp only
    rw [if_pos (by omega)]
    congr 1 <;> omega
  · unfold nextDayJS
    dsimp only
    rw [if_neg (by omega), if_pos (by omega)]
    have hm : m - 1 + 1 = m := by omega
    rw [hm]
    congr 1 <;> omega
  · unfold nextDayJS
    dsimp only
    have h31 : daysInMonth (y - 1) 12 = 31 := rfl
    rw [if_neg (by rw [h31]; omega), if_neg (by omega)]
    congr 1 <;> omega

lemma valid_next_iter (k : ℕ) : ∀ (t : YMD), Valid t →
    Valid (nextDayJS^[k] t) ∧ rataDie (nextDayJS^[k] t) = rataDie t + k := by
  induction k with
  | zero => intro t hv; simpa using hv
  | succ n ih =>
    intro t hv
    rw [Function.iterate_succ_apply]
    have h1 := rataDie_nextDay t hv
    have h2 := ih (nextDayJS t) h1.1
    refine ⟨h2.1, ?_⟩
    rw [h2.2, h1.2]
    push_cast
    ring

lemma valid_prev_iter (k : ℕ) : ∀ (t : YMD), Valid t →
    Valid (prevDayJS^[k] t) ∧ rataDie (prevDayJS^[k] t) = rataDie t - k := by
  induction k with
  | zero => intro t hv; simpa using hv
  | succ n ih =>
    intro t hv
    rw [Function.iterate_succ_apply]
    have h1 := rataDie_prevDay t hv
    have h2 := ih (prevDayJS t) h1.1
    refine ⟨h2.1, ?_⟩
    rw [h2.2]
    have := h1.2
    push_cast
    omega

lemma next_prev_iter (j : ℕ) : ∀ (t : YMD), Valid t →
    nextDayJS^[j] (prevDayJS^[j] t) = t := by
  induction j with
  | zero => intro t _; rfl
  | succ n ih =>
    intro t hv
    rw [Function.iterate_succ_apply' prevDayJS, Function.iterate_succ_apply nextDayJS]
    rw [next_prev (prevDayJS^[n] t) (valid_prev_iter n t hv).1]
    exact ih t hv

lemma prev_next_iter (j : ℕ) : ∀ (i : ℕ), j ≤ i → ∀ (t : YMD), Valid t →
    prevDayJS^[j] (nextDayJS^[i] t) = nextDayJS^[i - j] t := by
  induction j with
  | zero => intro i _ t _; rfl
  | succ n ih =>
    intro i hji t hv
    obtain ⟨i', rfl⟩ : ∃ i', i = i' + 1 := ⟨i - 1, by omega⟩
    rw [Function.iterate_succ_apply prevDayJS, Function.iterate_succ_apply' nextDayJS]
    rw [prev_next (nextDayJS^[i'] t) (valid_next_iter i' t hv).1]
    rw [ih i' (by omega) t hv]
    congr 1
    omega

lemma jsGetDay_next (t : YMD) (hv : Valid t) :
    jsGetDay (nextDayJS t) = (jsGetDay t + 1) % 7 := by
  unfold jsGetDay
  rw [(rataDie_nextDay t hv).2]
  omega

lemma addDays_succ_shift (k : ℤ) (t : YMD) (hv : Valid t) :
    addDays (k - 1) (nextDayJS t) = addDays k t := by
  unfold addDays
  by_cases hk : 1 ≤ k
  · rw [if_pos (by omega), if_pos (by omega)]
    have hn : k.toNat = (k - 1).toNat + 1 := by omega
    rw [hn, Function.iterate_succ_apply]
  · rw [if_neg (by omega)]
    by_cases hk0 : k = 0
    · subst hk0
      rw [if_pos (le_refl (0 : ℤ))]
      simp only [show (-(0 - 1 : ℤ)).toNat = 1 from rfl, show ((0 : ℤ)).toNat = 0 from rfl,
        Function.iterate_one, Function.iterate_zero_apply]
      exact prev_next t hv
    · rw [if_neg (by omega)]
      have hn : (-k).toNat + 1 = (-(k - 1)).toNat := by omega
      rw [← hn, Function.iterate_succ_apply]
      rw [prev_next t hv]

lemma nextDay_year_le (t : YMD) : t.y ≤ (nextDayJS t).y := by
  obtain ⟨y, m, d⟩ := t
  unfold nextDayJS
  dsimp only
  split_ifs <;> dsimp only <;> omega

lemma next_iter_year_le (k : ℕ) : ∀ (t : YMD), t.y ≤ (nextDayJS^[k] t).y := by
  induction k with
  | zero => intro t; exact le_refl _
  | succ n ih =>
    intro t
    rw [Function.iterate_succ_apply]
    exact le_trans (nextDay_year_le t) (ih (nextDayJS t))

lemma dBY_mono {a b : ℤ} (h : a ≤ b) : daysBeforeYear a ≤ daysBeforeYear b := by
  have key : ∀ k : ℕ, daysBeforeYear a ≤ daysBeforeYear (a + k) := by
    intro k
    induction k with
    | zero => simp
    | succ n ih =>
      have hs := dBY_succ (a + n)
      push_cast
      push_cast at ih
      rw [show a + ((n : ℤ) + 1) = a + n + 1 from by ring]
      split_ifs at hs <;> omega
  have hb : b = a + ((b - a).toNat : ℤ) := by omega
  rw [hb]
  exact key _

lemma monthdays_bound (y : ℤ) (m : ℕ) (h1 : 1 ≤ m) (h2 : m ≤ 12) :
    daysBeforeMonth y m + daysInMonth y m ≤ 365 + (if isLeap y then 1 else 0) := by
  interval_cases m <;> cases hL : isLeap y <;>
    simp only [daysBeforeMonth, daysInMonth, hL] <;> norm_num

lemma rataDie_jan1 (y : ℤ) : rataDie ⟨y, 1, 1⟩ = daysBeforeYear y + 1 := by
  have e : rataDie ⟨y, 1, 1⟩ = daysBeforeYear y + 0 + (1 : ℤ) := rfl
  omega

lemma inYear_bounds (t : YMD) (hv : Valid t) :
    0 ≤ rataDie t - rataDie ⟨t.y, 1, 1⟩ ∧
    rataDie t - rataDie ⟨t.y, 1, 1⟩ ≤ 365 ∧
    rataDie t ≤ daysBeforeYear (t.y + 1) := by
  obtain ⟨hm1, hm12, hd1, hdM⟩ := hv
  have hb := monthdays_bound t.y t.m hm1 hm12
  have e1 := rataDie_jan1 t.y
  have e2 := rataDie_def t
  have hdb := dBY_succ t.y
  cases hL : isLeap t.y <;> rw [hL] at hb hdb <;> simp at hb hdb <;> omega

lemma weekNoOf_eq (dst : Bool) (thu : YMD) (hv : Valid thu) :
    weekNoOf dst thu = (rataDie thu - rataDie ⟨thu.y, 1, 1⟩) / 7 + 1 := by
  have h0 := (inYear_bounds thu hv).1
  simp only [weekNoOf]
  set n : ℤ := rataDie thu - rataDie ⟨thu.y, 1, 1⟩ with hn
  have h7 := Int.ediv_add_emod n 7
  have hr0 : 0 ≤ n % 7 := Int.emod_nonneg n (by norm_num)
  have hr6 : n % 7 < 7 := Int.emod_lt_of_pos n (by norm_num)
  have key : ∀ ε : ℚ, 0 ≤ ε → ε < 1 →
      (((n / 7 + 1 : ℤ) : ℚ) - 1 < (((n : ℚ) - ε) + 1) / 7 ∧
        (((n : ℚ) - ε) + 1) / 7 ≤ ((n / 7 + 1 : ℤ) : ℚ)) := by
    intro ε he0 he1
    have hcq : (7 : ℚ) * ((n / 7 : ℤ) : ℚ) + ((n % 7 : ℤ) : ℚ) = ((n : ℤ) : ℚ) := by
      exact_mod_cast h7
    have hq0 : (0 : ℚ) ≤ ((n % 7 : ℤ) : ℚ) := by exact_mod_cast hr0
    have hr6b : n % 7 ≤ 6 := by omega
    have hq6 : ((n % 7 : ℤ) : ℚ) ≤ 6 := by exact_mod_cast hr6b
    constructor
    · rw [lt_div_iff (by norm_num : (0 : ℚ) < 7)]
      push_cast
      push_cast at hcq
      linarith
    · rw [div_le_iff (by norm_num : (0 : ℚ) < 7)]
      push_cast
      push_cast at hcq
      linarith
  rw [Int.ceil_eq_iff]
  cases dst
  · simp only [Bool.false_eq_true, if_false]
    exact key 0 (le_refl 0) (by norm_num)
  · simp only [if_true]
    exact key (1/24) (by norm_num) (by norm_num)

lemma isoDayNum_bounds (t : YMD) : 1 ≤ isoDayNum t ∧ isoDayNum t ≤ 7 := by
  have h0 := jsGetDay_nonneg t
  have h7 := jsGetDay_lt t
  unfold isoDayNum
  split_ifs <;> omega

lemma isoDayNum_next (t : YMD) (hv : Valid t) (hns : jsGetDay t ≠ 0) :
    isoDayNum (nextDayJS t) = isoDayNum t + 1 := by
  have h0 := jsGetDay_nonneg t
  have h7 := jsGetDay_lt t
  unfold isoDayNum
  rw [jsGetDay_next t hv]
  split_ifs <;> omega

lemma weekThursday_next (t : YMD) (hv : Valid t) (hns : jsGetDay t ≠ 0) :
    weekThursday (nextDayJS t) = weekThursday t := by
  unfold weekThursday
  rw [isoDayNum_next t hv hns,
    show (4 : ℤ) - (isoDayNum t + 1) = 4 - isoDayNum t - 1 from by ring]
  exact addDays_succ_shift (4 - isoDayNum t) t hv

lemma weekThursday_spec (t : YMD) (hv : Valid t) :
    Valid (weekThursday t) ∧
    rataDie (weekThursday t) = rataDie t + 4 - isoDayNum t := by
  unfold weekThursday addDays
  by_cases h : (0 : ℤ) ≤ 4 - isoDayNum t
  · rw [if_pos h]
    have hit := valid_next_iter (4 - isoDayNum t).toNat t hv
    refine ⟨hit.1, ?_⟩
    rw [hit.2]
    omega
  · rw [if_neg h]
    have hit := valid_prev_iter (-(4 - isoDayNum t)).toNat t hv
    refine ⟨hit.1, ?_⟩
    rw [hit.2]
    omega

lemma weekThursday_monday_iter (m : YMD) (hv : Valid m) (hmon : jsGetDay m = 1) :
    ∀ k, k ≤ 6 → weekThursday (nextDayJS^[k] m) = weekThursday m := by
  intro k
  induction k with
  | zero => intro _; rfl
  | succ n ih =>
    intro hk
    have hvn := (valid_next_iter n m hv).1
    have hrd := (valid_next_iter n m hv).2
    have hns : jsGetDay (nextDayJS^[n] m) ≠ 0 := by
      unfold jsGetDay at hmon ⊢
      rw [hrd]
      omega
    rw [Function.iterate_succ_apply', weekThursday_next (nextDayJS^[n] m) hvn hns]
    exact ih (by omega)

/-! ## String-level distinctness of week keys -/

lemma string_data_inj {a b : String} (h : a.data = b.data) : a = b := by
  cases a
  cases b
  exact congrArg String.mk h

lemma toString_int_toNat (w : ℤ) (h : 0 ≤ w) : toString w = toString w.toNat := by
  rcases w with n | n
  · rfl
  · exact absurd h (by simp)

lemma pad2_inj : ∀ a : ℕ, a < 54 → ∀ b : ℕ, b < 54 → a ≠ b →
    padStart2 (toString a) ≠ padStart2 (toString b) := by decide

lemma pad2_len : ∀ a : ℕ, a < 54 → (padStart2 (toString a)).data.length = 2 := by decide

lemma weekKey_ne (y1 y2 w1 w2 : ℤ) (h11 : 1 ≤ w1) (h13 : w1 ≤ 53)
    (h21 : 1 ≤ w2) (h23 : w2 ≤ 53) (hne : w1 ≠ w2) :
    toString y1 ++ "-W" ++ padStart2 (toString w1) ≠
      toString y2 ++ "-W" ++ padStart2 (toString w2) := by
  intro heq
  have hw1 : toString w1 = toString w1.toNat := toString_int_toNat w1 (by omega)
  have hw2 : toString w2 = toString w2.toNat := toString_int_toNat w2 (by omega)
  have hd := congrArg String.data heq
  rw [String.data_append, String.data_append, String.data_append, String.data_append] at hd
  have hl1 : (padStart2 (toString w1)).data.length = 2 := by
    rw [hw1]; exact pad2_len w1.toNat (by omega)
  have hl2 : (padStart2 (toString w2)).data.length = 2 := by
    rw [hw2]; exact pad2_len w2.toNat (by omega)
  have hsuffix := (List.append_inj' hd (hl1.trans hl2.symm)).2
  have hps : padStart2 (toString w1) = padStart2 (toString w2) := string_data_inj hsuffix
  rw [hw1, hw2] at hps
  exact pad2_inj w1.toNat (by omega) w2.toNat (by omega) (by omega) hps

lemma sunday_key_ne (dst : Bool) (t : YMD) (hv : Valid t) (hsun : jsGetDay t = 0) :
    getWeekKey dst (nextDayJS t) ≠ getWeekKey dst t := by
  have hiso : isoDayNum t = 7 := by unfold isoDayNum; rw [hsun]; norm_num
  have hvN := (rataDie_nextDay t hv).1
  have hrdN := (rataDie_nextDay t hv).2
  have hthu := weekThursday_spec t hv
  have hthuN := weekThursday_spec (nextDayJS t) hvN
  have hgN : jsGetDay (nextDayJS t) = 1 := by
    unfold jsGetDay at hsun ⊢
    rw [hrdN]
    omega
  have hisoN : isoDayNum (nextDayJS t) = 1 := by unfold isoDayNum; rw [hgN]; norm_num
  have hrthu : rataDie (weekThursday t) = rataDie t - 3 := by
    rw [hthu.2, hiso]; ring
  have hrthuN : rataDie (weekThursday (nextDayJS t)) = rataDie t + 4 := by
    rw [hthuN.2, hisoN, hrdN]; ring
  have hb := inYear_bounds (weekThursday t) hthu.1
  have hbN := inYear_bounds (weekThursday (nextDayJS t)) hthuN.1
  rw [rataDie_jan1] at hb hbN
  have hw := weekNoOf_eq dst (weekThursday t) hthu.1
  have hwN := weekNoOf_eq dst (weekThursday (nextDayJS t)) hthuN.1
  rw [rataDie_jan1] at hw hwN
  rcases lt_trichotomy (weekThursday (nextDayJS t)).y (weekThursday t).y with hlt | heq | hgt
  · exfalso
    have hm1 : daysBeforeYear (weekThursday (nextDayJS t)).y ≤
        daysBeforeYear ((weekThursday t).y - 1) := dBY_mono (by omega)
    have hs := dBY_succ ((weekThursday t).y - 1)
    rw [show (weekThursday t).y - 1 + 1 = (weekThursday t).y from by ring] at hs
    split_ifs at hs <;> omega
  · unfold getWeekKey
    rw [heq] at hbN hwN
    refine weekKey_ne _ _ _ _ ?_ ?_ ?_ ?_ ?_ <;> simp only [hwN, hw, heq] <;> omega
  · unfold getWeekKey
    have hm1 : daysBeforeYear ((weekThursday t).y + 1) ≤
        daysBeforeYear (weekThursday (nextDayJS t)).y := dBY_mono (by omega)
    have hs := dBY_succ (weekThursday t).y
    refine weekKey_ne _ _ _ _ ?_ ?_ ?_ ?_ ?_ <;> simp only [hwN, hw] <;>
      split_ifs at hs <;> omega

/-! ## C9: the week key is stable within an ISO week and changes at Monday -/

/-- C9: within one ISO week (the Monday and the six following days) every
date gets the same `YYYY-Www` string from `getWeekKey`; for two consecutive
dates the strings are equal exactly when the boundary is not a
Sunday-to-Monday transition; and `getDayOfWeek` maps Monday to 0 through
Sunday to 6. Both hold for either value of the daylight-saving adjustment in
the millisecond division. -/
theorem claim_C9 :
    (∀ (dst : Bool) (m : YMD) (k1 k2 : ℕ), Valid m → jsGetDay m = 1 → k1 ≤ 6 → k2 ≤ 6 →
      getWeekKey dst (nextDayJS^[k1] m) = getWeekKey dst (nextDayJS^[k2] m)) ∧
    (∀ (dst : Bool) (t : YMD), Valid t →
      (getWeekKey dst (nextDayJS t) = getWeekKey dst t ↔ jsGetDay t ≠ 0)) ∧
    (∀ t : YMD, getDayOfWeek t = ((jsGetDay t + 6) % 7).toNat ∧
      (jsGetDay t = 1 → getDayOfWeek t = 0) ∧
      (jsGetDay t = 0 → getDayOfWeek t = 6)) := by
  refine ⟨fun dst m k1 k2 hv hmon hk1 hk2 => ?_, fun dst t hv => ?_, fun t => ?_⟩
  · unfold getWeekKey
    rw [weekThursday_monday_iter m hv hmon k1 hk1, weekThursday_monday_iter m hv hmon k2 hk2]
  · constructor
    · intro heq h0
      exact sunday_key_ne dst t hv h0 heq
    · intro hns
      unfold getWeekKey
      rw [weekThursday_next t hv hns]
  · have h0 := jsGetDay_nonneg t
    have h7 := jsGetDay_lt t
    unfold getDayOfWeek
    refine ⟨?_, ?_, ?_⟩ <;> split_ifs <;> omega

/-- Witness for C9: 2026-10-12 is a Monday (its key equals the key three
days later), 2026-10-11 is a Sunday (its key changes on the next day), and
2026-10-14 is a Wednesday (day index 2). -/
theorem claim_C9_witness :
    (getWeekKey false (nextDayJS^[0] ⟨2026, 10, 12⟩) =
      getWeekKey false (nextDayJS^[3] ⟨2026, 10, 12⟩)) ∧
    (getWeekKey false (nextDayJS ⟨2026, 10, 11⟩) = getWeekKey false ⟨2026, 10, 11⟩ ↔
      jsGetDay ⟨2026, 10, 11⟩ ≠ 0) ∧
    (getDayOfWeek ⟨2026, 10, 14⟩ = ((jsGetDay ⟨2026, 10, 14⟩ + 6) % 7).toNat ∧
      (jsGetDay ⟨2026, 10, 14⟩ = 1 → getDayOfWeek ⟨2026, 10, 14⟩ = 0) ∧
      (jsGetDay ⟨2026, 10, 14⟩ = 0 → getDayOfWeek ⟨2026, 10, 14⟩ = 6)) :=
  ⟨claim_C9.1 false ⟨2026, 10, 12⟩ 0 3
      ⟨by norm_num, by norm_num, by norm_num, by norm_num [daysInMonth]⟩
      (by decide) (by norm_num) (by norm_num),
    claim_C9.2.1 false ⟨2026, 10, 11⟩
      ⟨by norm_num, by norm_num, by norm_num, by norm_num [daysInMonth]⟩,
    claim_C9.2.2 ⟨2026, 10, 14⟩⟩

end RailwayDog
